import Mathlib

/-!
Verification of the list-state management core of `jotview` (`src/main.rs`).

The development shallowly embeds the parts of the program the specification
talks about:

* the `Jotform` record (all fields are strings, as in the Rust struct);
* a model of `chrono::NaiveDate::parse_from_str(_, "%Y-%m-%d")` returning
  `Option NDate` (`none` models a parse error; the Rust code calls
  `.unwrap()` on that result inside the sort comparator, which panics);
* the sort comparator passed to `Vec::sort_by` (lines 58-73 and 293-312 of
  `main.rs`, both closures are identical), embedded as
  `cmpJotform? : Jotform → Jotform → Option Ordering` where `none` models
  the `.unwrap()` panic;
* `Vec::sort_by` itself.  Rust's `sort_by` is a stable comparison sort; we
  embed it as the canonical stable insertion sort (`sortBy?`), inserting an
  element before the first element it does not compare `Greater` to.  For a
  consistent comparator this is exactly the (unique) stable sort that
  `sort_by` computes.  The comparator above is *inconsistent* for pairs of
  `InProgress` tickets (always `Less`, both ways) and pairs of `Unplanned`
  tickets (always `Greater`, both ways); for such inputs Rust documents the
  resulting order as unspecified, and the insertion sort below is the
  refinement of that unspecified behaviour used throughout.  The sort is
  `Option`-valued: `none` models the date-parse panic propagating out of a
  comparison;
* the status-cycle `match` of the `'e'` key handler (`next`);
* `update_status` (lines 349-361), abstracting the HTTP call by an
  `UpdateResult` value: a transport error makes `reqwest` return `Err`,
  which `update_status` propagates with `?`; a non-2xx response is printed
  to stderr and the function returns `Ok(())`;
* the interactive event loop's key handlers (lines 256-331), embedded as a
  pure step function `handleKey` on an `AppState` record; `Except.error`
  models both a propagated `Err` (which terminates `main`) and a panic.

Reachable session states are the states produced from the startup fetch by
any sequence of key events (`Reachable`).
-/

/-- Calendar date produced by a successful `NaiveDate` parse. -/
structure NDate where
  year : Nat
  month : Nat
  day : Nat
deriving DecidableEq, Repr, Inhabited

/-- `NaiveDate` orders dates lexicographically by (year, month, day); on
calendar-valid dates (month ≤ 12, day ≤ 31) that coincides with the order of
this packed key, which keeps all order reasoning inside `Nat`. -/
def NDate.key (d : NDate) : Nat := d.year * 10000 + d.month * 100 + d.day

/-- Model of `chrono::NaiveDate`'s total order (`date_b.cmp(&date_a)` in the
comparator). -/
def NDate.cmpD (a b : NDate) : Ordering := compare a.key b.key

/-- Proleptic-Gregorian leap-year rule used by `chrono`. -/
def isLeap (y : Nat) : Bool := y % 4 = 0 && (y % 100 ≠ 0 || y % 400 = 0)

/-- Number of days of month `m` in year `y`. -/
def daysInMonth (y m : Nat) : Nat :=
  if m = 2 then (if isLeap y then 29 else 28)
  else if m = 4 || m = 6 || m = 9 || m = 11 then 30
  else 31

/-- Split a character list at every occurrence of `sep` (the semantics of
`str::split('-')`). -/
def splitOnChar (sep : Char) : List Char → List (List Char)
  | [] => [[]]
  | c :: cs =>
    if c = sep then [] :: splitOnChar sep cs
    else
      match splitOnChar sep cs with
      | [] => [[c]]
      | g :: gs => (c :: g) :: gs

/-- Accumulate decimal digits; any non-digit character fails the parse. -/
def digitsToNatAux (acc : Nat) : List Char → Option Nat
  | [] => some acc
  | c :: cs =>
    if 48 ≤ c.toNat ∧ c.toNat ≤ 57 then digitsToNatAux (acc * 10 + (c.toNat - 48)) cs
    else none

/-- Parse a non-empty all-digit character list as a decimal number. -/
def digitsToNat? : List Char → Option Nat
  | [] => none
  | cs => digitsToNatAux 0 cs

/-- Model of `NaiveDate::parse_from_str(s, "%Y-%m-%d")`: three dash-separated
decimal components forming a valid calendar date.  (Signed years and other
`chrono` niceties are irrelevant to the real inputs `YYYY-MM-DD`; anything
else returns `none`, modelling `Err`.) -/
def parse_from_str (s : String) : Option NDate :=
  match splitOnChar '-' s.data with
  | [y, m, d] =>
    match digitsToNat? y, digitsToNat? m, digitsToNat? d with
    | some yn, some mn, some dn =>
      if 1 ≤ mn ∧ mn ≤ 12 ∧ 1 ≤ dn ∧ dn ≤ daysInMonth yn mn then
        some ⟨yn, mn, dn⟩
      else none
    | _, _, _ => none
  | _ => none

/-- `struct FullName` of `main.rs`. -/
structure FullName where
  first : String
  last : String
deriving DecidableEq, Repr, Inhabited

/-- `struct SubmissionDate` of `main.rs`. -/
structure SubmissionDate where
  date : String
  time : String
deriving DecidableEq, Repr, Inhabited

/-- `struct Jotform` of `main.rs`. -/
structure Jotform where
  id : String
  submitter_name : FullName
  created_at : SubmissionDate
  location : String
  exhibit_name : String
  description : String
  priority_level : String
  department : String
  status : String
deriving DecidableEq, Repr, Inhabited

/-- The comparator closure passed to `jotforms.sort_by` (lines 58-73, and
verbatim again in the `'e'` handler, lines 293-312).  The `match` on the
status pair is translated arm by arm into an `if` chain; the date branch
mirrors `NaiveDate::parse_from_str(..).unwrap()` with `none` standing for
the panic of `.unwrap()` on a failed parse. -/
def cmpJotform? (a b : Jotform) : Option Ordering :=
  let status_order : Ordering :=
    if a.status = "InProgress" then .lt
    else if b.status = "InProgress" then .gt
    else if a.status = "Unplanned" then .gt
    else if b.status = "Unplanned" then .lt
    else .eq
  if status_order = .eq then
    match parse_from_str a.created_at.date, parse_from_str b.created_at.date with
    | some date_a, some date_b => some (NDate.cmpD date_b date_a)
    | _, _ => none
  else some status_order

/-- One insertion step of the stable insertion sort modelling `sort_by`:
`x` is placed before the first element it does not compare `Greater` to.
`none` propagates a comparator panic. -/
def orderedInsert? (cmp : α → α → Option Ordering) (x : α) : List α → Option (List α)
  | [] => some [x]
  | y :: ys =>
    match cmp x y with
    | none => none
    | some c => if c = .gt then (orderedInsert? cmp x ys).map (y :: ·) else some (x :: y :: ys)

/-- Stable insertion sort modelling `Vec::sort_by` (see the header comment
for the discussion of comparator inconsistency). -/
def sortBy? (cmp : α → α → Option Ordering) : List α → Option (List α)
  | [] => some []
  | x :: xs => (sortBy? cmp xs).bind (orderedInsert? cmp x)

/-- The Ordering Policy as applied by the program: `jotforms.sort_by(..)`
with the comparator above. -/
def sortJotforms (l : List Jotform) : Option (List Jotform) := sortBy? cmpJotform? l

/-- Primary-key bucket of a status: `InProgress` first, `Unplanned` last,
everything else (including unrecognised statuses) in the middle. -/
def statusRank (s : String) : Nat :=
  if s = "InProgress" then 0 else if s = "Unplanned" then 2 else 1

/-- The date a ticket's `created_at.date` parses to (a throwaway sentinel if
it does not parse; only ever used under the hypothesis that it does). -/
def dateVal (j : Jotform) : NDate := (parse_from_str j.created_at.date).getD ⟨0, 0, 0⟩

/-- Packed comparison key of a ticket's submission date. -/
def dkey (j : Jotform) : Nat := (dateVal j).key

/-- The ordering the specification claims for the displayed list: buckets in
order `InProgress`, middle, `Unplanned`, and dates non-increasing inside
every bucket. -/
def bucketDateOrdered (l : List Jotform) : Prop :=
  l.Pairwise fun a b =>
    statusRank a.status ≤ statusRank b.status ∧
      (statusRank a.status = statusRank b.status → dkey b ≤ dkey a)

/-- The ordering the program actually establishes: buckets in order, and
dates non-increasing inside the middle bucket only. -/
def bucketMiddleDateOrdered (l : List Jotform) : Prop :=
  l.Pairwise fun a b =>
    statusRank a.status ≤ statusRank b.status ∧
      (statusRank a.status = 1 → statusRank b.status = 1 → dkey b ≤ dkey a)

/-- The status-cycle `match` of the `'e'` key handler (lines 285-291),
translated arm by arm. -/
def next (s : String) : String :=
  match s with
  | "Open" => "InProgress"
  | "InProgress" => "Closed"
  | "Closed" => "Unplanned"
  | "Unplanned" => "Open"
  | _ => "Open"

/-- Outcome of the HTTP POST performed by `update_status`: either the send
itself fails (`reqwest` returns `Err`) or a response with some status code
arrives. -/
inductive UpdateResult where
  | sendError (msg : String)
  | response (code : Nat)
deriving DecidableEq, Repr

/-- `reqwest::StatusCode::is_success`: the 2xx range. -/
def is_success (code : Nat) : Bool := 200 ≤ code && code ≤ 299

/-- `update_status` (lines 349-361).  A send error is propagated with `?`
(the `Except.error` case); otherwise a non-2xx status code is reported with
`eprintln!` (the returned list of stderr lines) and the function returns
`Ok(())`. -/
def update_status (id new_status : String) (r : UpdateResult) : Except String (List String) :=
  match id, new_status, r with
  | _, _, .sendError msg => .error msg
  | _, _, .response code =>
    if is_success code then .ok []
    else .ok ["Failed to update status: " ++ toString code]

/-- The mutable session state of the event loop: the ticket vector, the
selected ticket's id and the description-pane scroll offset
(`description_offset: u16` in the code, embedded as a `Nat` kept below
`65535` by the saturating arithmetic). -/
structure AppState where
  jotforms : List Jotform
  selected_id : String
  description_offset : Nat
deriving DecidableEq, Repr, Inhabited

/-- Result of handling one key event: the new state, the stderr lines
printed while handling it, and whether the loop is left (`'q'`). -/
structure StepResult where
  state : AppState
  stderr : List String
  exitFlag : Bool
deriving DecidableEq, Repr

/-- The key events the loop reacts to. -/
inductive KeyCode where
  | charQ
  | up
  | down
  | charE
  | pageUp
  | pageDown
  | other
deriving DecidableEq, Repr

/-- `u16::saturating_add` on the embedded offset. -/
def u16SaturatingAdd (x y : Nat) : Nat := min (x + y) 65535

/-- Mutation performed through `jotforms.iter_mut().find(|j| j.id == selected_id)`:
the first ticket whose id matches gets the new status, everything else is
untouched. -/
def updateFirstById (id new_status : String) : List Jotform → List Jotform
  | [] => []
  | j :: js =>
    if j.id = id then { j with status := new_status } :: js
    else j :: updateFirstById id new_status js

/-- One iteration of the event loop's `match key.code` (lines 256-331).
`Except.error` models the two ways the loop can die: the `?` on
`update_status` propagating a send error out of `main`, and the date-parse
panic inside the re-sort.  All other branches return the updated state, the
stderr output and the exit flag. -/
def handleKey (st : AppState) (key : KeyCode) (backend : UpdateResult) :
    Except String StepResult :=
  match key with
  | .charQ => .ok ⟨st, [], true⟩
  | .up =>
    match st.jotforms.findIdx? (fun j => j.id == st.selected_id) with
    | some current_index =>
      if current_index > 0 then
        .ok ⟨{ st with
                selected_id := (st.jotforms.getD (current_index - 1) default).id,
                description_offset := 0 }, [], false⟩
      else .ok ⟨st, [], false⟩
    | none => .ok ⟨st, [], false⟩
  | .down =>
    match st.jotforms.findIdx? (fun j => j.id == st.selected_id) with
    | some current_index =>
      if current_index < st.jotforms.length - 1 then
        .ok ⟨{ st with
                selected_id := (st.jotforms.getD (current_index + 1) default).id,
                description_offset := 0 }, [], false⟩
      else .ok ⟨st, [], false⟩
    | none => .ok ⟨st, [], false⟩
  | .charE =>
    match st.jotforms.find? (fun j => j.id == st.selected_id) with
    | some selected_jotform =>
      let new_status := next selected_jotform.status
      let jotforms1 := updateFirstById st.selected_id new_status st.jotforms
      match update_status selected_jotform.id new_status backend with
      | .error e => .error e
      | .ok errLines =>
        match sortJotforms jotforms1 with
        | none => .error "panicked at date parse unwrap"
        | some sorted =>
          let selected' :=
            match sorted.findIdx? (fun j => j.id == st.selected_id) with
            | some new_index => (sorted.getD new_index default).id
            | none => st.selected_id
          .ok ⟨{ jotforms := sorted, selected_id := selected',
                 description_offset := st.description_offset }, errLines, false⟩
    | none => .ok ⟨st, [], false⟩
  | .pageUp =>
    .ok ⟨{ st with description_offset := st.description_offset - 1 }, [], false⟩
  | .pageDown =>
    .ok ⟨{ st with description_offset := u16SaturatingAdd st.description_offset 1 }, [], false⟩
  | .other => .ok ⟨st, [], false⟩

/-- Startup (lines 55-81): fetch, sort (`none` = date-parse panic), select
the first ticket's id via `get(0).map(..).unwrap_or_default()`, offset 0. -/
def initState? (fetched : List Jotform) : Option AppState :=
  (sortJotforms fetched).map fun sorted =>
    { jotforms := sorted,
      selected_id := ((sorted.get? 0).map Jotform.id).getD "",
      description_offset := 0 }

/-- Session states reachable from the startup fetch `fetched` by any
sequence of key events (each event carrying its own backend outcome for the
`'e'` case).  Only `.ok` steps continue the loop. -/
inductive Reachable (fetched : List Jotform) : AppState → Prop where
  | init : ∀ st, initState? fetched = some st → Reachable fetched st
  | step : ∀ st k b r, Reachable fetched st → handleKey st k b = .ok r →
      Reachable fetched r.state

/-- Inserting an element permutes it into the list. -/
theorem orderedInsert?_perm (cmp : α → α → Option Ordering) (x : α) :
    ∀ l m, orderedInsert? cmp x l = some m → m.Perm (x :: l) := by
  intro l
  induction l with
  | nil =>
    intro m hm
    simp only [orderedInsert?, Option.some.injEq] at hm
    subst hm; exact List.Perm.refl _
  | cons y ys ih =>
    intro m hm
    cases hc : cmp x y with
    | none => simp [orderedInsert?, hc] at hm
    | some c =>
      by_cases hcgt : c = .gt
      · simp [orderedInsert?, hc, hcgt] at hm
        obtain ⟨m0, hm0, rfl⟩ := hm
        exact ((ih m0 hm0).cons y).trans (List.Perm.swap x y ys)
      · simp [orderedInsert?, hc, hcgt] at hm
        subst hm; exact List.Perm.refl _

/-- A successful sort is a permutation of its input. -/
theorem sortBy?_perm (cmp : α → α → Option Ordering) :
    ∀ l l', sortBy? cmp l = some l' → l'.Perm l := by
  intro l
  induction l with
  | nil =>
    intro l' h
    simp only [sortBy?, Option.some.injEq] at h
    subst h; exact List.Perm.refl _
  | cons x xs ih =>
    intro l' h
    simp only [sortBy?] at h
    cases hs : sortBy? cmp xs with
    | none => rw [hs] at h; simp at h
    | some s =>
      rw [hs, Option.some_bind] at h
      exact (orderedInsert?_perm cmp x s l' h).trans ((ih s hs).cons x)

/-- Every pairwise order `r` compatible with the comparator's verdicts (on
elements satisfying `P`) holds of a successful insertion's result. -/
theorem orderedInsert?_pairwise (cmp : α → α → Option Ordering) (P : α → Prop)
    (r : α → α → Prop)
    (hgt : ∀ a b, P a → P b → cmp a b = some .gt → r b a)
    (hle : ∀ a b c, P a → P b → cmp a b = some c → c ≠ .gt → r a b)
    (htr : ∀ a b c, P a → P b → P c → r a b → r b c → r a c) :
    ∀ l m x, P x → (∀ y ∈ l, P y) → l.Pairwise r → orderedInsert? cmp x l = some m →
      m.Pairwise r := by
  intro l
  induction l with
  | nil =>
    intro m x _ _ _ hm
    simp only [orderedInsert?, Option.some.injEq] at hm
    subst hm; simp
  | cons y ys ih =>
    intro m x hPx hPl hpw hm
    rw [List.pairwise_cons] at hpw
    have hPy : P y := hPl y (List.mem_cons_self y ys)
    have hPys : ∀ z ∈ ys, P z := fun z hz => hPl z (List.mem_cons_of_mem _ hz)
    cases hc : cmp x y with
    | none => simp [orderedInsert?, hc] at hm
    | some c =>
      by_cases hcgt : c = .gt
      · simp [orderedInsert?, hc, hcgt] at hm
        obtain ⟨m0, hm0, rfl⟩ := hm
        have hpm0 := ih m0 x hPx hPys hpw.2 hm0
        rw [List.pairwise_cons]
        refine ⟨fun z hz => ?_, hpm0⟩
        have hz' := (orderedInsert?_perm cmp x ys m0 hm0).mem_iff.mp hz
        rw [List.mem_cons] at hz'
        rcases hz' with rfl | hz''
        · exact hgt z y hPx hPy (hcgt ▸ hc)
        · exact hpw.1 z hz''
      · simp [orderedInsert?, hc, hcgt] at hm
        subst hm
        rw [List.pairwise_cons]
        have hxy : r x y := hle x y c hPx hPy hc hcgt
        refine ⟨fun z hz => ?_, List.pairwise_cons.mpr ⟨hpw.1, hpw.2⟩⟩
        rw [List.mem_cons] at hz
        rcases hz with rfl | hz'
        · exact hxy
        · exact htr x y z hPx hPy (hPys z hz') hxy (hpw.1 z hz')

/-- Every pairwise order compatible with the comparator's verdicts (on
elements satisfying `P`) holds of a successful sort's result. -/
theorem sortBy?_pairwise (cmp : α → α → Option Ordering) (P : α → Prop)
    (r : α → α → Prop)
    (hgt : ∀ a b, P a → P b → cmp a b = some .gt → r b a)
    (hle : ∀ a b c, P a → P b → cmp a b = some c → c ≠ .gt → r a b)
    (htr : ∀ a b c, P a → P b → P c → r a b → r b c → r a c) :
    ∀ l l', (∀ x ∈ l, P x) → sortBy? cmp l = some l' → l'.Pairwise r := by
  intro l
  induction l with
  | nil =>
    intro l' _ h
    simp only [sortBy?, Option.some.injEq] at h
    subst h; simp
  | cons x xs ih =>
    intro l' hP h
    simp only [sortBy?] at h
    cases hs : sortBy? cmp xs with
    | none => rw [hs] at h; simp at h
    | some s =>
      rw [hs, Option.some_bind] at h
      have hperm := sortBy?_perm cmp xs s hs
      have hPs : ∀ y ∈ s, P y := fun y hy =>
        hP y (List.mem_cons_of_mem _ (hperm.mem_iff.mp hy))
      exact orderedInsert?_pairwise cmp P r hgt hle htr s l' x
        (hP x (List.mem_cons_self x xs)) hPs
        (ih s (fun z hz => hP z (List.mem_cons_of_mem _ hz)) hs) h

/-- If the comparator never panics on the head against the list, insertion
succeeds. -/
theorem orderedInsert?_isSome (cmp : α → α → Option Ordering) (x : α) :
    ∀ l, (∀ y ∈ l, (cmp x y).isSome) → ∃ m, orderedInsert? cmp x l = some m := by
  intro l
  induction l with
  | nil => exact fun _ => ⟨[x], rfl⟩
  | cons y ys ih =>
    intro h
    have hy := h y (List.mem_cons_self y ys)
    cases hc : cmp x y with
    | none => rw [hc] at hy; simp at hy
    | some c =>
      by_cases hcgt : c = .gt
      · obtain ⟨m0, hm0⟩ := ih (fun z hz => h z (List.mem_cons_of_mem _ hz))
        exact ⟨y :: m0, by simp [orderedInsert?, hc, hcgt, hm0]⟩
      · exact ⟨x :: y :: ys, by simp [orderedInsert?, hc, hcgt]⟩

/-- If the comparator never panics on pairs from the list, the sort
succeeds. -/
theorem sortBy?_isSome (cmp : α → α → Option Ordering) :
    ∀ l, (∀ a ∈ l, ∀ b ∈ l, (cmp a b).isSome) → ∃ l', sortBy? cmp l = some l' := by
  intro l
  induction l with
  | nil => exact fun _ => ⟨[], rfl⟩
  | cons x xs ih =>
    intro h
    obtain ⟨s, hs⟩ := ih (fun a ha b hb =>
      h a (List.mem_cons_of_mem _ ha) b (List.mem_cons_of_mem _ hb))
    have hperm := sortBy?_perm cmp xs s hs
    obtain ⟨m, hm⟩ := orderedInsert?_isSome cmp x s (fun y hy =>
      h x (List.mem_cons_self x xs) y (List.mem_cons_of_mem _ (hperm.mem_iff.mp hy)))
    exact ⟨m, by simp [sortBy?, hs, hm]⟩

/-- A list every adjacent-in-order pair of which the comparator puts weakly
in order is a fixed point of the sort. -/
theorem sortBy?_eq_self (cmp : α → α → Option Ordering) :
    ∀ l, l.Pairwise (fun a b => ∃ c, cmp a b = some c ∧ c ≠ .gt) →
      sortBy? cmp l = some l := by
  intro l
  induction l with
  | nil => intro _; rfl
  | cons x xs ih =>
    intro hpw
    rw [List.pairwise_cons] at hpw
    have hxs := ih hpw.2
    simp only [sortBy?, hxs, Option.some_bind]
    cases xs with
    | nil => rfl
    | cons y ys =>
      obtain ⟨c, hc, hcne⟩ := hpw.1 y (List.mem_cons_self y ys)
      simp [orderedInsert?, hc, hcne]

/-- Every status bucket ranks at most 2. -/
theorem statusRank_le_two (s : String) : statusRank s ≤ 2 := by
  unfold statusRank
  split
  · omega
  · split <;> omega

/-- A non-`Greater` comparator verdict implies the bucket/middle-date order
between its operands. -/
theorem cmpJotform?_le_rank (a b : Jotform) (c : Ordering)
    (h : cmpJotform? a b = some c) (hne : c ≠ .gt) :
    statusRank a.status ≤ statusRank b.status ∧
      (statusRank a.status = 1 → statusRank b.status = 1 → dkey b ≤ dkey a) := by
  by_cases haI : a.status = "InProgress"
  · constructor
    · simp [statusRank, haI]
    · intro h1
      simp [statusRank, haI] at h1
  · by_cases hbI : b.status = "InProgress"
    · simp [cmpJotform?, haI, hbI] at h
      exact absurd h.symm hne
    · by_cases haU : a.status = "Unplanned"
      · simp [cmpJotform?, haI, hbI, haU] at h
        exact absurd h.symm hne
      · by_cases hbU : b.status = "Unplanned"
        · constructor
          · have ha1 : statusRank a.status = 1 := by simp [statusRank, haI, haU]
            have hb2 : statusRank b.status = 2 := by simp [statusRank, hbI, hbU]
            omega
          · intro _ h2
            simp [statusRank, hbI, hbU] at h2
        · have ha1 : statusRank a.status = 1 := by simp [statusRank, haI, haU]
          have hb1 : statusRank b.status = 1 := by simp [statusRank, hbI, hbU]
          cases hpa : parse_from_str a.created_at.date with
          | none => simp [cmpJotform?, haI, hbI, haU, hbU, hpa] at h
          | some da =>
            cases hpb : parse_from_str b.created_at.date with
            | none => simp [cmpJotform?, haI, hbI, haU, hbU, hpa, hpb] at h
            | some db =>
              simp only [cmpJotform?, haI, hbI, haU, hbU, if_neg, if_false,
                hpa, hpb] at h
              refine ⟨by omega, fun _ _ => ?_⟩
              have hcd : NDate.cmpD db da ≠ .gt := by
                simp at h
                rw [h]; exact hne
              unfold NDate.cmpD at hcd
              rw [ne_eq, Nat.compare_eq_gt] at hcd
              have : dkey b = db.key := by simp [dkey, dateVal, hpb]
              have : dkey a = da.key := by simp [dkey, dateVal, hpa]
              omega

/-- A `Greater` comparator verdict implies the reverse bucket/middle-date
order between its operands. -/
theorem cmpJotform?_gt_rank (a b : Jotform)
    (h : cmpJotform? a b = some .gt) :
    statusRank b.status ≤ statusRank a.status ∧
      (statusRank b.status = 1 → statusRank a.status = 1 → dkey a ≤ dkey b) := by
  by_cases haI : a.status = "InProgress"
  · simp [cmpJotform?, haI] at h
  · by_cases hbI : b.status = "InProgress"
    · constructor
      · simp [statusRank, hbI]
      · intro h1
        simp [statusRank, hbI] at h1
    · by_cases haU : a.status = "Unplanned"
      · have ha2 : statusRank a.status = 2 := by simp [statusRank, haI, haU]
        refine ⟨by have := statusRank_le_two b.status; omega, fun _ h2 => by omega⟩
      · by_cases hbU : b.status = "Unplanned"
        · simp [cmpJotform?, haI, hbI, haU, hbU] at h
        · have ha1 : statusRank a.status = 1 := by simp [statusRank, haI, haU]
          have hb1 : statusRank b.status = 1 := by simp [statusRank, hbI, hbU]
          cases hpa : parse_from_str a.created_at.date with
          | none => simp [cmpJotform?, haI, hbI, haU, hbU, hpa] at h
          | some da =>
            cases hpb : parse_from_str b.created_at.date with
            | none => simp [cmpJotform?, haI, hbI, haU, hbU, hpa, hpb] at h
            | some db =>
              simp only [cmpJotform?, haI, hbI, haU, hbU, if_neg, if_false,
                hpa, hpb] at h
              refine ⟨by omega, fun _ _ => ?_⟩
              simp at h
              have hcd : NDate.cmpD db da = .gt := h
              unfold NDate.cmpD at hcd
              rw [Nat.compare_eq_gt] at hcd
              have : dkey b = db.key := by simp [dkey, dateVal, hpb]
              have : dkey a = da.key := by simp [dkey, dateVal, hpa]
              omega

/-- The bucket/middle-date order is transitive. -/
theorem rankRel_trans (a b c : Jotform)
    (hab : statusRank a.status ≤ statusRank b.status ∧
      (statusRank a.status = 1 → statusRank b.status = 1 → dkey b ≤ dkey a))
    (hbc : statusRank b.status ≤ statusRank c.status ∧
      (statusRank b.status = 1 → statusRank c.status = 1 → dkey c ≤ dkey b)) :
    statusRank a.status ≤ statusRank c.status ∧
      (statusRank a.status = 1 → statusRank c.status = 1 → dkey c ≤ dkey a) := by
  obtain ⟨h1, h2⟩ := hab
  obtain ⟨h3, h4⟩ := hbc
  refine ⟨le_trans h1 h3, fun hA hC => ?_⟩
  have hB : statusRank b.status = 1 := by omega
  exact le_trans (h4 hB hC) (h2 hA hB)

/-- If every ticket's date parses, the comparator never panics. -/
theorem cmpJotform?_isSome (a b : Jotform)
    (hpa : (parse_from_str a.created_at.date).isSome)
    (hpb : (parse_from_str b.created_at.date).isSome) :
    (cmpJotform? a b).isSome := by
  obtain ⟨da, hda⟩ := Option.isSome_iff_exists.mp hpa
  obtain ⟨db, hdb⟩ := Option.isSome_iff_exists.mp hpb
  simp only [cmpJotform?, hda, hdb]
  split
  · simp
  · split
    · simp
    · split
      · simp
      · split <;> simp

/-- A concrete `InProgress` ticket submitted 2024-01-01. -/
def jotInProgress1 : Jotform :=
  ⟨"T1", ⟨"Ann", "Lee"⟩, ⟨"2024-01-01", "09:00"⟩, "Hall A", "Fossil Dig", "broken lamp",
    "Low", "Exhibits", "InProgress"⟩

/-- A concrete `InProgress` ticket submitted later, 2024-01-05. -/
def jotInProgress2 : Jotform :=
  { jotInProgress1 with id := "T2", created_at := ⟨"2024-01-05", "10:00"⟩ }

/-- A concrete `Open` ticket with a well-formed date. -/
def jotOpenA : Jotform := { jotInProgress1 with id := "A", status := "Open" }

/-- A concrete `Open` ticket whose date does not parse. -/
def jotOpenBadDate : Jotform :=
  { jotInProgress1 with id := "B", status := "Open", created_at := ⟨"not-a-date", "10:00"⟩ }

/-- A concrete `Unplanned` ticket submitted 2024-01-01. -/
def jotUnplanned1 : Jotform := { jotInProgress1 with id := "U1", status := "Unplanned" }

/-- A concrete `Unplanned` ticket submitted 2024-01-02. -/
def jotUnplanned2 : Jotform :=
  { jotInProgress1 with
    id := "U2"
    status := "Unplanned"
    created_at := ⟨"2024-01-02", "10:00"⟩ }

/-- C1 (amended): applying the Ordering Policy to any list of tickets whose
`created_at` dates all parse as `YYYY-MM-DD` succeeds, and in the result
every `InProgress` ticket precedes every `Open`/`Closed` (middle-bucket)
ticket, every middle-bucket ticket precedes every `Unplanned` ticket, and
within the middle bucket submission dates are non-increasing.  (The original
claim additionally asserted non-increasing dates inside the `InProgress` and
`Unplanned` buckets; the comparator never compares those pairs by date, see
the counterexample.) -/
theorem C1_sorted_buckets_middle_dates (l : List Jotform)
    (hp : ∀ j ∈ l, (parse_from_str j.created_at.date).isSome) :
    ∃ l', sortJotforms l = some l' ∧ bucketMiddleDateOrdered l' := by
  obtain ⟨l', hl'⟩ := sortBy?_isSome cmpJotform? l
    (fun a ha b hb => cmpJotform?_isSome a b (hp a ha) (hp b hb))
  refine ⟨l', hl', ?_⟩
  unfold bucketMiddleDateOrdered
  exact sortBy?_pairwise cmpJotform? (fun _ => True)
    (fun a b => statusRank a.status ≤ statusRank b.status ∧
      (statusRank a.status = 1 → statusRank b.status = 1 → dkey b ≤ dkey a))
    (fun a b _ _ h => cmpJotform?_gt_rank a b h)
    (fun a b c _ _ h hne => cmpJotform?_le_rank a b c h hne)
    (fun a b c _ _ _ hab hbc => rankRel_trans a b c hab hbc)
    l l' (fun _ _ => trivial) hl'

/-- Witness for C1 at a concrete one-ticket list. -/
theorem C1_sorted_buckets_middle_dates_witness :
    (∀ j ∈ [jotOpenA], (parse_from_str j.created_at.date).isSome) ∧
      ∃ l', sortJotforms [jotOpenA] = some l' ∧ bucketMiddleDateOrdered l' :=
  ⟨by decide, C1_sorted_buckets_middle_dates [jotOpenA] (by decide)⟩

/-- C1 as frozen is false: two `InProgress` tickets listed with ascending
submission dates are left untouched by the Ordering Policy (the comparator
returns `Less` for every `InProgress` pair without looking at dates), so
inside the `InProgress` bucket dates are not non-increasing. -/
theorem C1_counterexample :
    sortJotforms [jotInProgress1, jotInProgress2] =
        some [jotInProgress1, jotInProgress2] ∧
      ¬ bucketDateOrdered [jotInProgress1, jotInProgress2] := by
  constructor
  · decide
  · intro h
    unfold bucketDateOrdered at h
    rw [List.pairwise_cons] at h
    have h2 := (h.1 jotInProgress2 (by simp)).2 (by decide)
    exact absurd h2 (by decide)

/-- C2: the code does crash while sorting a list that contains a malformed
date: comparing two middle-bucket tickets, one with unparseable
`created_at.date`, the comparator hits `.unwrap()` on a failed parse, which
panics (`none`). -/
theorem C2_sort_panics_on_malformed_date :
    sortJotforms [jotOpenA, jotOpenBadDate] = none := by decide

/-- C4 (amended): on the four recognised statuses the cycle
`Open → InProgress → Closed → Unplanned → Open` has period 4. -/
theorem C4_next_period_four (s : String)
    (h : s = "Open" ∨ s = "InProgress" ∨ s = "Closed" ∨ s = "Unplanned") :
    next (next (next (next s))) = s := by
  rcases h with rfl | rfl | rfl | rfl <;> rfl

/-- Witness for C4 at status `Open`. -/
theorem C4_next_period_four_witness :
    ("Open" = "Open" ∨ "Open" = "InProgress" ∨ "Open" = "Closed" ∨
        "Open" = "Unplanned") ∧
      next (next (next (next "Open"))) = "Open" :=
  ⟨Or.inl rfl, C4_next_period_four "Open" (Or.inl rfl)⟩

/-- C4 as frozen is false: an unrecognised status maps to `Open` and then
around the cycle, so four applications of `next` land on `Unplanned`, not
back on the input. -/
theorem C4_counterexample : next (next (next (next "Pending"))) ≠ "Pending" := by
  decide

/-- A found index is inside the list. -/
theorem findIdx?_lt_length {l : List α} {p : α → Bool} {i : Nat}
    (h : l.findIdx? p = some i) : i < l.length := by
  obtain ⟨hlt, -, -⟩ := List.findIdx?_eq_some_iff_getElem.mp h
  exact hlt

/-- The element at a found index satisfies the predicate. -/
theorem findIdx?_getD_pred {l : List α} {p : α → Bool} {i : Nat} (d : α)
    (h : l.findIdx? p = some i) : p (l.getD i d) = true := by
  obtain ⟨hlt, hp, -⟩ := List.findIdx?_eq_some_iff_getElem.mp h
  rw [List.getD_eq_getElem?_getD, List.getElem?_eq_getElem hlt]
  exact hp

/-- `getD` at an in-range index is a member of the list. -/
theorem getD_mem_of_lt {l : List α} {i : Nat} (d : α) (h : i < l.length) :
    l.getD i d ∈ l := by
  rw [List.getD_eq_getElem?_getD, List.getElem?_eq_getElem h]
  exact List.getElem_mem h

/-- The status mutation leaves every ticket id in place. -/
theorem updateFirstById_map_id (id s : String) :
    ∀ l : List Jotform, (updateFirstById id s l).map Jotform.id = l.map Jotform.id := by
  intro l
  induction l with
  | nil => rfl
  | cons j js ih =>
    unfold updateFirstById
    by_cases h : j.id = id
    · simp [h]
    · simp [h, ih]

/-- A ticket id present before the status mutation is present after it. -/
theorem updateFirstById_exists_id (id s x : String) (l : List Jotform)
    (h : ∃ j ∈ l, j.id = x) : ∃ j ∈ updateFirstById id s l, j.id = x := by
  have hm : x ∈ (updateFirstById id s l).map Jotform.id := by
    rw [updateFirstById_map_id]
    exact List.mem_map.mpr h
  exact List.mem_map.mp hm

/-- The ticket found by `iter_mut().find` reappears, with the new status,
in the mutated list. -/
theorem updateFirstById_mem_of_find? (id s : String) {a : Jotform} :
    ∀ l : List Jotform, l.find? (fun j => j.id == id) = some a →
      { a with status := s } ∈ updateFirstById id s l := by
  intro l
  induction l with
  | nil => intro h; simp at h
  | cons j js ih =>
    intro h
    by_cases hj : (j.id == id) = true
    · have hcons : (j :: js).find? (fun x => x.id == id) = some j :=
        List.find?_cons_of_pos _ hj
      rw [hcons] at h
      injection h with h
      subst h
      unfold updateFirstById
      rw [if_pos (by simpa using hj)]
      exact List.mem_cons_self _ _
    · have hcons : (j :: js).find? (fun x => x.id == id) =
          js.find? (fun x => x.id == id) :=
        List.find?_cons_of_neg _ (by simpa using hj)
      rw [hcons] at h
      unfold updateFirstById
      rw [if_neg (by simpa using hj)]
      exact List.mem_cons_of_mem _ (ih h)

/-- Shape of a successful `'e'` handler step: either a ticket with the
selected id was found, the backend call returned `Ok`, the re-sort
succeeded, and the result re-selects by the old id over the re-sorted list;
or no ticket was found and nothing happened. -/
theorem handleKey_charE_ok (st : AppState) (b : UpdateResult) (r : StepResult)
    (h : handleKey st .charE b = .ok r) :
    (∃ sel sorted errs,
      st.jotforms.find? (fun j => j.id == st.selected_id) = some sel ∧
      update_status sel.id (next sel.status) b = .ok errs ∧
      sortJotforms (updateFirstById st.selected_id (next sel.status) st.jotforms) =
        some sorted ∧
      r = ⟨{ jotforms := sorted,
             selected_id :=
               match sorted.findIdx? (fun j => j.id == st.selected_id) with
               | some new_index => (sorted.getD new_index default).id
               | none => st.selected_id,
             description_offset := st.description_offset }, errs, false⟩) ∨
    (st.jotforms.find? (fun j => j.id == st.selected_id) = none ∧
      r = ⟨st, [], false⟩) := by
  cases hf : st.jotforms.find? (fun j => j.id == st.selected_id) with
  | none =>
    right
    simp only [handleKey, hf] at h
    exact ⟨rfl, (Except.ok.inj h).symm⟩
  | some sel =>
    left
    cases hu : update_status sel.id (next sel.status) b with
    | error e =>
      simp only [handleKey, hf, hu] at h
      exact Except.noConfusion h
    | ok errs =>
      cases hs : sortJotforms
          (updateFirstById st.selected_id (next sel.status) st.jotforms) with
      | none =>
        simp only [handleKey, hf, hu, hs] at h
        exact Except.noConfusion h
      | some sorted =>
        refine ⟨sel, sorted, errs, rfl, hu, hs, ?_⟩
        simp only [handleKey, hf, hu, hs] at h
        exact (Except.ok.inj h).symm

/-- Frame facts of every successful handler step: ticket ids are permuted,
the scroll offset is 0, kept, saturating-decremented or
saturating-incremented, and a selected id that referenced a ticket still
references one. -/
theorem handleKey_ok_fields (st : AppState) (k : KeyCode) (b : UpdateResult)
    (r : StepResult) (h : handleKey st k b = .ok r) :
    (r.state.jotforms.map Jotform.id).Perm (st.jotforms.map Jotform.id) ∧
    (r.state.description_offset = 0 ∨
      r.state.description_offset = st.description_offset ∨
      r.state.description_offset = st.description_offset - 1 ∨
      r.state.description_offset = u16SaturatingAdd st.description_offset 1) ∧
    ((∃ j ∈ st.jotforms, j.id = st.selected_id) →
      ∃ j ∈ r.state.jotforms, j.id = r.state.selected_id) := by
  cases k with
  | charQ =>
    obtain rfl := Except.ok.inj h
    exact ⟨List.Perm.refl _, Or.inr (Or.inl rfl), fun hx => hx⟩
  | other =>
    obtain rfl := Except.ok.inj h
    exact ⟨List.Perm.refl _, Or.inr (Or.inl rfl), fun hx => hx⟩
  | pageUp =>
    obtain rfl := Except.ok.inj h
    exact ⟨List.Perm.refl _, Or.inr (Or.inr (Or.inl rfl)), fun hx => hx⟩
  | pageDown =>
    obtain rfl := Except.ok.inj h
    exact ⟨List.Perm.refl _, Or.inr (Or.inr (Or.inr rfl)), fun hx => hx⟩
  | up =>
    cases hIdx : st.jotforms.findIdx? (fun j => j.id == st.selected_id) with
    | none =>
      simp only [handleKey, hIdx] at h
      obtain rfl := Except.ok.inj h
      exact ⟨List.Perm.refl _, Or.inr (Or.inl rfl), fun hx => hx⟩
    | some i =>
      by_cases hi : i > 0
      · simp only [handleKey, hIdx, if_pos hi] at h
        obtain rfl := Except.ok.inj h
        refine ⟨List.Perm.refl _, Or.inl rfl, fun _ => ?_⟩
        have hlt : i < st.jotforms.length := findIdx?_lt_length hIdx
        exact ⟨st.jotforms.getD (i - 1) default,
          getD_mem_of_lt (l := st.jotforms) _ (show i - 1 < st.jotforms.length by omega), rfl⟩
      · simp only [handleKey, hIdx, if_neg hi] at h
        obtain rfl := Except.ok.inj h
        exact ⟨List.Perm.refl _, Or.inr (Or.inl rfl), fun hx => hx⟩
  | down =>
    cases hIdx : st.jotforms.findIdx? (fun j => j.id == st.selected_id) with
    | none =>
      simp only [handleKey, hIdx] at h
      obtain rfl := Except.ok.inj h
      exact ⟨List.Perm.refl _, Or.inr (Or.inl rfl), fun hx => hx⟩
    | some i =>
      by_cases hi : i < st.jotforms.length - 1
      · simp only [handleKey, hIdx, if_pos hi] at h
        obtain rfl := Except.ok.inj h
        refine ⟨List.Perm.refl _, Or.inl rfl, fun _ => ?_⟩
        have hlt : i < st.jotforms.length := findIdx?_lt_length hIdx
        exact ⟨st.jotforms.getD (i + 1) default,
          getD_mem_of_lt (l := st.jotforms) _ (show i + 1 < st.jotforms.length by omega), rfl⟩
      · simp only [handleKey, hIdx, if_neg hi] at h
        obtain rfl := Except.ok.inj h
        exact ⟨List.Perm.refl _, Or.inr (Or.inl rfl), fun hx => hx⟩
  | charE =>
    rcases handleKey_charE_ok st b r h with
      ⟨sel, sorted, errs, hf, hu, hs, rfl⟩ | ⟨hf, rfl⟩
    · have hperm : sorted.Perm
          (updateFirstById st.selected_id (next sel.status) st.jotforms) :=
        sortBy?_perm _ _ _ hs
      have hmap : (sorted.map Jotform.id).Perm (st.jotforms.map Jotform.id) := by
        have h1 := hperm.map Jotform.id
        rw [updateFirstById_map_id] at h1
        exact h1
      refine ⟨hmap, Or.inr (Or.inl rfl), fun hx => ?_⟩
      cases hIdx : sorted.findIdx? (fun j => j.id == st.selected_id) with
      | some idx =>
        simp only [hIdx]
        exact ⟨sorted.getD idx default, getD_mem_of_lt _ (findIdx?_lt_length hIdx), rfl⟩
      | none =>
        simp only [hIdx]
        obtain ⟨j0, hj0, hj0id⟩ := hx
        have hmem : st.selected_id ∈ sorted.map Jotform.id :=
          hmap.mem_iff.mpr (List.mem_map.mpr ⟨j0, hj0, hj0id⟩)
        exact List.mem_map.mp hmem
    · exact ⟨List.Perm.refl _, Or.inr (Or.inl rfl), fun hx => hx⟩

/-- C7: navigation is bounded without wraparound: `Up` when the selected
ticket is at index 0 and `Down` when it is at the last index leave the state
(including `selected_id` and the scroll offset) unchanged, and on a
one-ticket list both are no-ops. -/
theorem C7_navigation_boundary :
    (∀ (st : AppState) (b : UpdateResult),
        st.jotforms.findIdx? (fun j => j.id == st.selected_id) = some 0 →
        handleKey st .up b = .ok ⟨st, [], false⟩) ∧
    (∀ (st : AppState) (b : UpdateResult),
        st.jotforms.findIdx? (fun j => j.id == st.selected_id) =
            some (st.jotforms.length - 1) →
        handleKey st .down b = .ok ⟨st, [], false⟩) ∧
    (∀ (st : AppState) (b : UpdateResult), st.jotforms.length = 1 →
        handleKey st .up b = .ok ⟨st, [], false⟩ ∧
        handleKey st .down b = .ok ⟨st, [], false⟩) := by
  refine ⟨?_, ?_, ?_⟩
  · intro st b h
    simp [handleKey, h]
  · intro st b h
    simp [handleKey, h]
  · intro st b hlen
    cases hIdx : st.jotforms.findIdx? (fun j => j.id == st.selected_id) with
    | none => exact ⟨by simp [handleKey, hIdx], by simp [handleKey, hIdx]⟩
    | some i =>
      have hi : i < st.jotforms.length := findIdx?_lt_length hIdx
      have hi0 : i = 0 := by omega
      subst hi0
      exact ⟨by simp [handleKey, hIdx], by simp [handleKey, hIdx, hlen]⟩

/-- Witness for C7 on a concrete one-ticket state. -/
theorem C7_navigation_boundary_witness :
    ((⟨[jotOpenA], "A", 3⟩ : AppState).jotforms.findIdx?
        (fun j => j.id == (⟨[jotOpenA], "A", 3⟩ : AppState).selected_id) = some 0) ∧
      handleKey ⟨[jotOpenA], "A", 3⟩ .up (.response 204) =
        .ok ⟨⟨[jotOpenA], "A", 3⟩, [], false⟩ :=
  ⟨by decide, C7_navigation_boundary.1 ⟨[jotOpenA], "A", 3⟩ (.response 204) (by decide)⟩

/-- C8: the scroll offset is reset exactly by selection movement: a
successful `Up`/`Down` step that changes the selection ends with offset 0,
while a successful `'e'` (status change) step keeps the offset at its prior
value. -/
theorem C8_scroll_reset_on_move_only :
    (∀ (st : AppState) (b : UpdateResult) (r : StepResult),
        handleKey st .up b = .ok r → r.state.selected_id ≠ st.selected_id →
        r.state.description_offset = 0) ∧
    (∀ (st : AppState) (b : UpdateResult) (r : StepResult),
        handleKey st .down b = .ok r → r.state.selected_id ≠ st.selected_id →
        r.state.description_offset = 0) ∧
    (∀ (st : AppState) (b : UpdateResult) (r : StepResult),
        handleKey st .charE b = .ok r →
        r.state.description_offset = st.description_offset) := by
  refine ⟨?_, ?_, ?_⟩
  · intro st b r h hne
    cases hIdx : st.jotforms.findIdx? (fun j => j.id == st.selected_id) with
    | none =>
      simp only [handleKey, hIdx] at h
      obtain rfl := Except.ok.inj h
      exact absurd rfl hne
    | some i =>
      by_cases hi : i > 0
      · simp only [handleKey, hIdx, if_pos hi] at h
        obtain rfl := Except.ok.inj h
        rfl
      · simp only [handleKey, hIdx, if_neg hi] at h
        obtain rfl := Except.ok.inj h
        exact absurd rfl hne
  · intro st b r h hne
    cases hIdx : st.jotforms.findIdx? (fun j => j.id == st.selected_id) with
    | none =>
      simp only [handleKey, hIdx] at h
      obtain rfl := Except.ok.inj h
      exact absurd rfl hne
    | some i =>
      by_cases hi : i < st.jotforms.length - 1
      · simp only [handleKey, hIdx, if_pos hi] at h
        obtain rfl := Except.ok.inj h
        rfl
      · simp only [handleKey, hIdx, if_neg hi] at h
        obtain rfl := Except.ok.inj h
        exact absurd rfl hne
  · intro st b r h
    rcases handleKey_charE_ok st b r h with
      ⟨sel, sorted, errs, hf, hu, hs, rfl⟩ | ⟨hf, rfl⟩ <;> rfl

/-- Witness for C8: a concrete `Up` step that changes the selection resets
the offset, and a concrete `'e'` step keeps it. -/
theorem C8_scroll_reset_on_move_only_witness :
    (handleKey ⟨[jotOpenA, jotUnplanned1], "U1", 7⟩ .up (.response 204) =
        .ok ⟨⟨[jotOpenA, jotUnplanned1], "A", 0⟩, [], false⟩) ∧
    ((⟨⟨[jotOpenA, jotUnplanned1], "A", 0⟩, [], false⟩ :
        StepResult).state.selected_id ≠
      (⟨[jotOpenA, jotUnplanned1], "U1", 7⟩ : AppState).selected_id) ∧
    ((⟨⟨[jotOpenA, jotUnplanned1], "A", 0⟩, [], false⟩ :
        StepResult).state.description_offset = 0) ∧
    (handleKey ⟨[jotOpenA], "A", 5⟩ .charE (.response 204) =
        .ok ⟨⟨[{ jotOpenA with status := "InProgress" }], "A", 5⟩, [], false⟩) ∧
    ((⟨⟨[{ jotOpenA with status := "InProgress" }], "A", 5⟩, [], false⟩ :
        StepResult).state.description_offset =
      (⟨[jotOpenA], "A", 5⟩ : AppState).description_offset) :=
  ⟨by rfl, by decide, C8_scroll_reset_on_move_only.1 ⟨[jotOpenA, jotUnplanned1], "U1", 7⟩
      (.response 204) ⟨⟨[jotOpenA, jotUnplanned1], "A", 0⟩, [], false⟩ (by rfl) (by decide),
    by rfl, C8_scroll_reset_on_move_only.2.2 ⟨[jotOpenA], "A", 5⟩ (.response 204)
      ⟨⟨[{ jotOpenA with status := "InProgress" }], "A", 5⟩, [], false⟩ (by rfl)⟩

/-- C5: selection identity survives mutation: if the selected id is the id
of a ticket `t` in the list, a successful `'e'` step (status change,
backend call, re-sort, re-selection) ends with the same selected id. -/
theorem C5_selection_identity (st : AppState) (t : Jotform) (b : UpdateResult)
    (r : StepResult) (_ht : t ∈ st.jotforms) (hsel : st.selected_id = t.id)
    (h : handleKey st .charE b = .ok r) :
    r.state.selected_id = t.id := by
  rcases handleKey_charE_ok st b r h with
    ⟨sel, sorted, errs, hf, hu, hs, rfl⟩ | ⟨hf, rfl⟩
  · dsimp only
    cases hIdx : sorted.findIdx? (fun j => j.id == st.selected_id) with
    | none => exact hsel
    | some i =>
      have hp := findIdx?_getD_pred default hIdx
      have hid : (sorted.getD i default).id = st.selected_id := by simpa using hp
      show (sorted.getD i default).id = t.id
      rw [hid, hsel]
  · exact hsel

/-- Witness for C5 on a concrete two-ticket state. -/
theorem C5_selection_identity_witness :
    (jotOpenA ∈ (⟨[jotOpenA, jotUnplanned1], "A", 2⟩ : AppState).jotforms) ∧
    ((⟨[jotOpenA, jotUnplanned1], "A", 2⟩ : AppState).selected_id = jotOpenA.id) ∧
    (handleKey ⟨[jotOpenA, jotUnplanned1], "A", 2⟩ .charE (.response 204) =
      .ok ⟨⟨[{ jotOpenA with status := "InProgress" }, jotUnplanned1], "A", 2⟩,
        [], false⟩) ∧
    ((⟨⟨[{ jotOpenA with status := "InProgress" }, jotUnplanned1], "A", 2⟩,
        [], false⟩ : StepResult).state.selected_id = jotOpenA.id) :=
  ⟨by decide, by decide, by rfl,
    C5_selection_identity ⟨[jotOpenA, jotUnplanned1], "A", 2⟩ jotOpenA (.response 204)
      ⟨⟨[{ jotOpenA with status := "InProgress" }, jotUnplanned1], "A", 2⟩, [], false⟩
      (by decide) (by decide) (by rfl)⟩

/-- C3 (amended): a status-update failure that is a non-2xx HTTP response is
non-fatal: it is reported on stderr, the already-applied local status change
is kept, and the loop continues; a transport/send error, however, is
propagated by `?` out of the event loop and terminates the process (see the
counterexample). -/
theorem C3_non2xx_nonfatal (st : AppState) (code : Nat) (r : StepResult)
    (sel : Jotform)
    (hf : st.jotforms.find? (fun j => j.id == st.selected_id) = some sel)
    (hcode : is_success code = false)
    (h : handleKey st .charE (.response code) = .ok r) :
    r.exitFlag = false ∧
      r.stderr = ["Failed to update status: " ++ toString code] ∧
      ∃ j ∈ r.state.jotforms, j.id = sel.id ∧ j.status = next sel.status := by
  rcases handleKey_charE_ok st (.response code) r h with
    ⟨sel', sorted, errs, hf', hu, hs, rfl⟩ | ⟨hf', hr⟩
  · rw [hf] at hf'
    injection hf' with hf'
    subst hf'
    have herrs : errs = ["Failed to update status: " ++ toString code] := by
      simp [update_status, hcode] at hu
      exact hu.symm
    subst herrs
    refine ⟨rfl, rfl, ?_⟩
    have hmem1 : { sel with status := next sel.status } ∈
        updateFirstById st.selected_id (next sel.status) st.jotforms :=
      updateFirstById_mem_of_find? st.selected_id (next sel.status) st.jotforms hf
    have hperm := sortBy?_perm cmpJotform? _ sorted hs
    exact ⟨{ sel with status := next sel.status }, hperm.mem_iff.mpr hmem1, rfl, rfl⟩
  · rw [hf] at hf'
    exact Option.noConfusion hf'

/-- Concrete one-ticket session state used for the backend-failure cases. -/
def c3State : AppState := ⟨[jotOpenA], "A", 0⟩

/-- Concrete result of pressing `'e'` in `c3State` when the backend answers
500. -/
def c3Result : StepResult :=
  ⟨⟨[{ jotOpenA with status := "InProgress" }], "A", 0⟩,
    ["Failed to update status: 500"], false⟩

/-- C3 as frozen is false: a transport/send error during the status update
is fatal: the `'e'` handler propagates it with `?`, terminating the event
loop instead of continuing. -/
theorem C3_counterexample :
    handleKey c3State .charE (.sendError "error sending request") =
      .error "error sending request" := rfl

/-- Witness for C3 at the concrete state and a 500 response. -/
theorem C3_non2xx_nonfatal_witness :
    (c3State.jotforms.find? (fun j => j.id == c3State.selected_id) = some jotOpenA) ∧
    is_success 500 = false ∧
    (handleKey c3State .charE (.response 500) = .ok c3Result) ∧
    (c3Result.exitFlag = false ∧
      c3Result.stderr = ["Failed to update status: " ++ toString 500] ∧
      ∃ j ∈ c3Result.state.jotforms, j.id = jotOpenA.id ∧
        j.status = next jotOpenA.status) :=
  ⟨by decide, by decide, by rfl,
    C3_non2xx_nonfatal c3State 500 c3Result jotOpenA (by decide) (by decide) (by rfl)⟩

/-- C9: the selection is never dangling: in every session state reachable
from startup by any sequence of key events, a non-empty ticket list means
`selected_id` is the id of some ticket in it; and at startup `selected_id`
is the first ticket's id (or the empty string for an empty list). -/
theorem C9_selection_never_dangling :
    (∀ (fetched : List Jotform) (st : AppState), Reachable fetched st →
        st.jotforms ≠ [] → ∃ j ∈ st.jotforms, j.id = st.selected_id) ∧
    (∀ (fetched : List Jotform) (st : AppState), initState? fetched = some st →
        st.selected_id = ((st.jotforms.get? 0).map Jotform.id).getD "") := by
  constructor
  · intro fetched st hreach
    induction hreach with
    | init st hinit =>
      intro hne
      rw [initState?, Option.map_eq_some'] at hinit
      obtain ⟨sorted, hs, rfl⟩ := hinit
      cases sorted with
      | nil => simp at hne
      | cons j js => exact ⟨j, List.mem_cons_self _ _, by simp⟩
    | step st k b r hr hstep ih =>
      intro hne
      have hfields := handleKey_ok_fields st k b r hstep
      have hlen : st.jotforms ≠ [] := by
        intro h0
        apply hne
        have hperm := hfields.1
        rw [h0] at hperm
        simpa using hperm
      exact hfields.2.2 (ih hlen)
  · intro fetched st hinit
    rw [initState?, Option.map_eq_some'] at hinit
    obtain ⟨sorted, hs, rfl⟩ := hinit
    rfl

/-- Witness for C9 at a concrete startup state. -/
theorem C9_selection_never_dangling_witness :
    (Reachable [jotOpenA] ⟨[jotOpenA], "A", 0⟩) ∧
    (([jotOpenA] : List Jotform) ≠ []) ∧
    (∃ j ∈ ([jotOpenA] : List Jotform), j.id = "A") :=
  ⟨Reachable.init _ (by rfl), by decide,
    C9_selection_never_dangling.1 [jotOpenA] ⟨[jotOpenA], "A", 0⟩
      (Reachable.init _ (by rfl)) (by decide)⟩

/-- C10: the scroll offset is a saturating 16-bit counter: every reachable
state keeps it at most 65535, `PageUp` at offset 0 is a no-op, and
`PageDown` at offset 65535 is a no-op. -/
theorem C10_scroll_offset_bounds :
    (∀ (fetched : List Jotform) (st : AppState), Reachable fetched st →
        st.description_offset ≤ 65535) ∧
    (∀ (st : AppState) (b : UpdateResult), st.description_offset = 0 →
        handleKey st .pageUp b = .ok ⟨st, [], false⟩) ∧
    (∀ (st : AppState) (b : UpdateResult), st.description_offset = 65535 →
        handleKey st .pageDown b = .ok ⟨st, [], false⟩) := by
  refine ⟨?_, ?_, ?_⟩
  · intro fetched st hreach
    induction hreach with
    | init st hinit =>
      rw [initState?, Option.map_eq_some'] at hinit
      obtain ⟨sorted, hs, rfl⟩ := hinit
      exact Nat.zero_le _
    | step st k b r hr hstep ih =>
      have hfields := handleKey_ok_fields st k b r hstep
      rcases hfields.2.1 with h0 | h0 | h0 | h0 <;> rw [h0]
      · exact Nat.zero_le _
      · exact ih
      · omega
      · unfold u16SaturatingAdd
        omega
  · intro st b h
    cases st with
    | mk jf sid off =>
      simp only at h
      subst h
      simp [handleKey]
  · intro st b h
    cases st with
    | mk jf sid off =>
      simp only at h
      subst h
      simp [handleKey, u16SaturatingAdd]

/-- Witness for C10: the startup state is reachable with offset 0, and the
boundary no-ops hold at concrete states. -/
theorem C10_scroll_offset_bounds_witness :
    ((⟨[jotOpenA], "A", 0⟩ : AppState).description_offset ≤ 65535) ∧
    ((⟨[jotOpenA], "A", 0⟩ : AppState).description_offset = 0) ∧
    (handleKey ⟨[jotOpenA], "A", 0⟩ .pageUp (.response 204) =
      .ok ⟨⟨[jotOpenA], "A", 0⟩, [], false⟩) ∧
    ((⟨[jotOpenA], "A", 65535⟩ : AppState).description_offset = 65535) ∧
    (handleKey ⟨[jotOpenA], "A", 65535⟩ .pageDown (.response 204) =
      .ok ⟨⟨[jotOpenA], "A", 65535⟩, [], false⟩) :=
  ⟨C10_scroll_offset_bounds.1 [jotOpenA] ⟨[jotOpenA], "A", 0⟩
      (Reachable.init _ (by rfl)),
    by decide,
    C10_scroll_offset_bounds.2.1 ⟨[jotOpenA], "A", 0⟩ (.response 204) (by decide),
    by decide,
    C10_scroll_offset_bounds.2.2 ⟨[jotOpenA], "A", 65535⟩ (.response 204) (by decide)⟩

/-- The comparator puts an `InProgress` left operand unconditionally first
(the first match arm fires even against another `InProgress` ticket). -/
theorem cmpJotform?_inprogress_left (a b : Jotform) (ha : a.status = "InProgress") :
    cmpJotform? a b = some .lt := by
  simp [cmpJotform?, ha]

/-- The comparator puts an `Unplanned` left operand unconditionally last
(the third match arm fires even against another `Unplanned` ticket). -/
theorem cmpJotform?_unplanned_left (a b : Jotform) (ha : a.status = "Unplanned") :
    cmpJotform? a b = some .gt := by
  have haI : ¬ a.status = "InProgress" := by rw [ha]; decide
  by_cases hbI : b.status = "InProgress" <;> simp [cmpJotform?, haI, hbI, ha]

/-- A middle-bucket ticket compares `Less` against an `Unplanned` right
operand. -/
theorem cmpJotform?_unplanned_right (a b : Jotform) (haI : a.status ≠ "InProgress")
    (haU : a.status ≠ "Unplanned") (hb : b.status = "Unplanned") :
    cmpJotform? a b = some .lt := by
  have hbI : ¬ b.status = "InProgress" := by rw [hb]; decide
  simp [cmpJotform?, haI, haU, hb, hbI]

/-- Two middle-bucket tickets with parsing dates compare by date,
descending. -/
theorem cmpJotform?_middle (a b : Jotform) (haI : a.status ≠ "InProgress")
    (haU : a.status ≠ "Unplanned") (hbI : b.status ≠ "InProgress")
    (hbU : b.status ≠ "Unplanned") {da db : NDate}
    (hpa : parse_from_str a.created_at.date = some da)
    (hpb : parse_from_str b.created_at.date = some db) :
    cmpJotform? a b = some (NDate.cmpD db da) := by
  simp [cmpJotform?, haI, haU, hbI, hbU, hpa, hpb]

/-- A `Greater` verdict between two tickets that are not both `Unplanned`
is answered by a non-`Greater` verdict the other way round. -/
theorem cmpJotform?_gt_rev (a b : Jotform) (h : cmpJotform? a b = some .gt) :
    (∃ c, cmpJotform? b a = some c ∧ c ≠ .gt) ∨
      (b.status = "Unplanned" ∧ a.status = "Unplanned") := by
  by_cases haI : a.status = "InProgress"
  · rw [cmpJotform?_inprogress_left a b haI] at h
    simp at h
  · by_cases hbI : b.status = "InProgress"
    · exact Or.inl ⟨.lt, cmpJotform?_inprogress_left b a hbI, by decide⟩
    · by_cases haU : a.status = "Unplanned"
      · by_cases hbU : b.status = "Unplanned"
        · exact Or.inr ⟨hbU, haU⟩
        · exact Or.inl ⟨.lt, cmpJotform?_unplanned_right b a hbI hbU haU, by decide⟩
      · by_cases hbU : b.status = "Unplanned"
        · rw [cmpJotform?_unplanned_right a b haI haU hbU] at h
          simp at h
        · cases hpa : parse_from_str a.created_at.date with
          | none => simp [cmpJotform?, haI, hbI, haU, hbU, hpa] at h
          | some da =>
            cases hpb : parse_from_str b.created_at.date with
            | none => simp [cmpJotform?, haI, hbI, haU, hbU, hpa, hpb] at h
            | some db =>
              rw [cmpJotform?_middle a b haI haU hbI hbU hpa hpb] at h
              injection h with h
              refine Or.inl ⟨NDate.cmpD da db,
                cmpJotform?_middle b a hbI hbU haI haU hpb hpa, ?_⟩
              unfold NDate.cmpD at h ⊢
              rw [Nat.compare_eq_gt] at h
              rw [ne_eq, Nat.compare_eq_gt]
              omega

/-- Transitivity, over tickets with parsing dates, of the relation "the
comparator answers non-`Greater`, or both operands are `Unplanned`". -/
theorem r3_trans (a b c : Jotform)
    (hpa : (parse_from_str a.created_at.date).isSome)
    (hpc : (parse_from_str c.created_at.date).isSome)
    (hab : (∃ x, cmpJotform? a b = some x ∧ x ≠ .gt) ∨
      (a.status = "Unplanned" ∧ b.status = "Unplanned"))
    (hbc : (∃ x, cmpJotform? b c = some x ∧ x ≠ .gt) ∨
      (b.status = "Unplanned" ∧ c.status = "Unplanned")) :
    (∃ x, cmpJotform? a c = some x ∧ x ≠ .gt) ∨
      (a.status = "Unplanned" ∧ c.status = "Unplanned") := by
  rcases hab with ⟨ca, hca, hcane⟩ | ⟨haU, hbU⟩
  · rcases hbc with ⟨cb, hcb, hcbne⟩ | ⟨hbU, hcU⟩
    · by_cases haI : a.status = "InProgress"
      · exact Or.inl ⟨.lt, cmpJotform?_inprogress_left a c haI, by decide⟩
      · by_cases haU : a.status = "Unplanned"
        · rw [cmpJotform?_unplanned_left a b haU] at hca
          injection hca with h1
          exact absurd h1.symm hcane
        · by_cases hbU : b.status = "Unplanned"
          · rw [cmpJotform?_unplanned_left b c hbU] at hcb
            injection hcb with h2
            exact absurd h2.symm hcbne
          · by_cases hbI : b.status = "InProgress"
            · have hgt : cmpJotform? a b = some .gt := by
                simp [cmpJotform?, haI, hbI]
              rw [hgt] at hca
              injection hca with h1
              exact absurd h1.symm hcane
            · by_cases hcI : c.status = "InProgress"
              · have hgt : cmpJotform? b c = some .gt := by
                  simp [cmpJotform?, hbI, hcI]
                rw [hgt] at hcb
                injection hcb with h2
                exact absurd h2.symm hcbne
              · by_cases hcU : c.status = "Unplanned"
                · exact Or.inl ⟨.lt,
                    cmpJotform?_unplanned_right a c haI haU hcU, by decide⟩
                · obtain ⟨da, hda⟩ := Option.isSome_iff_exists.mp hpa
                  obtain ⟨dc, hdc⟩ := Option.isSome_iff_exists.mp hpc
                  cases hpb : parse_from_str b.created_at.date with
                  | none =>
                    have hnone : cmpJotform? a b = none := by
                      simp [cmpJotform?, haI, hbI, haU, hbU, hda, hpb]
                    rw [hnone] at hca
                    exact Option.noConfusion hca
                  | some db =>
                    rw [cmpJotform?_middle a b haI haU hbI hbU hda hpb] at hca
                    rw [cmpJotform?_middle b c hbI hbU hcI hcU hpb hdc] at hcb
                    injection hca with h1
                    injection hcb with h2
                    rw [← h1] at hcane
                    rw [← h2] at hcbne
                    refine Or.inl ⟨NDate.cmpD dc da,
                      cmpJotform?_middle a c haI haU hcI hcU hda hdc, ?_⟩
                    unfold NDate.cmpD at hcane hcbne ⊢
                    rw [ne_eq, Nat.compare_eq_gt] at hcane hcbne ⊢
                    omega
    · by_cases haI : a.status = "InProgress"
      · exact Or.inl ⟨.lt, cmpJotform?_inprogress_left a c haI, by decide⟩
      · by_cases haU : a.status = "Unplanned"
        · exact Or.inr ⟨haU, hcU⟩
        · exact Or.inl ⟨.lt, cmpJotform?_unplanned_right a c haI haU hcU, by decide⟩
  · rcases hbc with ⟨cb, hcb, hcbne⟩ | ⟨hbU2, hcU⟩
    · rw [cmpJotform?_unplanned_left b c hbU] at hcb
      injection hcb with h2
      exact absurd h2.symm hcbne
    · exact Or.inr ⟨haU, hcU⟩

/-- Two pairwise facts over the same list combine pointwise. -/
theorem pairwise_and {r s : α → α → Prop} :
    ∀ {l : List α}, l.Pairwise r → l.Pairwise s →
      l.Pairwise fun a b => r a b ∧ s a b := by
  intro l
  induction l with
  | nil => intro _ _; exact List.Pairwise.nil
  | cons x xs ih =>
    intro hr hs
    rw [List.pairwise_cons] at hr hs ⊢
    exact ⟨fun y hy => ⟨hr.1 y hy, hs.1 y hy⟩, ih hr.2 hs.2⟩

/-- C6 (amended): sorting is idempotent on ticket lists whose dates all
parse and that contain at most one `Unplanned` ticket: applying the Ordering
Policy to the already-ordered output returns it unchanged.  (Two `Unplanned`
tickets defeat idempotence because the comparator calls every `Unplanned`
pair `Greater` in both directions; see the counterexample.) -/
theorem C6_sort_idempotent (l l' : List Jotform)
    (hp : ∀ j ∈ l, (parse_from_str j.created_at.date).isSome)
    (hU : l.Pairwise fun a b => ¬(a.status = "Unplanned" ∧ b.status = "Unplanned"))
    (hs : sortJotforms l = some l') :
    sortJotforms l' = some l' := by
  have hperm : l'.Perm l := sortBy?_perm cmpJotform? l l' hs
  have hr3 : l'.Pairwise fun a b =>
      (∃ x, cmpJotform? a b = some x ∧ x ≠ .gt) ∨
        (a.status = "Unplanned" ∧ b.status = "Unplanned") :=
    sortBy?_pairwise cmpJotform?
      (fun j => (parse_from_str j.created_at.date).isSome = true)
      (fun a b => (∃ x, cmpJotform? a b = some x ∧ x ≠ .gt) ∨
        (a.status = "Unplanned" ∧ b.status = "Unplanned"))
      (fun a b _ _ h => cmpJotform?_gt_rev a b h)
      (fun a b c _ _ h hne => Or.inl ⟨c, h, hne⟩)
      (fun a b c hPa _ hPc hab hbc => r3_trans a b c hPa hPc hab hbc)
      l l' hp hs
  have hU' : l'.Pairwise fun a b =>
      ¬(a.status = "Unplanned" ∧ b.status = "Unplanned") :=
    (List.Perm.pairwise_iff (fun h hk => h ⟨hk.2, hk.1⟩) hperm).mpr hU
  have hcomb := pairwise_and hr3 hU'
  have hfix : l'.Pairwise fun a b => ∃ x, cmpJotform? a b = some x ∧ x ≠ .gt := by
    refine hcomb.imp ?_
    intro a b hab
    rcases hab with ⟨h1 | h2, hnU⟩
    · exact h1
    · exact absurd h2 hnU
  exact sortBy?_eq_self cmpJotform? l' hfix

/-- Witness for C6 on a concrete two-ticket list with one `Unplanned`
ticket. -/
theorem C6_sort_idempotent_witness :
    (∀ j ∈ [jotOpenA, jotUnplanned1], (parse_from_str j.created_at.date).isSome) ∧
    (([jotOpenA, jotUnplanned1] : List Jotform).Pairwise fun a b =>
      ¬(a.status = "Unplanned" ∧ b.status = "Unplanned")) ∧
    (sortJotforms [jotOpenA, jotUnplanned1] = some [jotOpenA, jotUnplanned1]) ∧
    (sortJotforms [jotOpenA, jotUnplanned1] = some [jotOpenA, jotUnplanned1]) :=
  ⟨by decide, by decide, by decide,
    C6_sort_idempotent [jotOpenA, jotUnplanned1] [jotOpenA, jotUnplanned1]
      (by decide) (by decide) (by decide)⟩

/-- C6 as frozen is false: for two `Unplanned` tickets the comparator
answers `Greater` in both directions, so each sort reverses them: sorting
the already-sorted output changes it back. -/
theorem C6_counterexample :
    sortJotforms [jotUnplanned1, jotUnplanned2] =
        some [jotUnplanned2, jotUnplanned1] ∧
      sortJotforms [jotUnplanned2, jotUnplanned1] =
        some [jotUnplanned1, jotUnplanned2] ∧
      ([jotUnplanned1, jotUnplanned2] : List Jotform) ≠
        [jotUnplanned2, jotUnplanned1] :=
  ⟨by decide, by decide, by decide⟩
